import Mathlib

/-!
# nem2-sdk-go: mosaic and network models

A shallow embedding of `sdk/network_model.go` and `sdk/mosaic_model.go`.

* Go `string` values are sequences of Unicode code points, `List Char`
  (a valid UTF-8 string; the separators searched for below are ASCII, and an
  ASCII byte never occurs inside a multi-byte UTF-8 sequence, so searching
  bytes and searching code points agree).
* `uint8`, `uint64` are `Nat` with explicit reduction modulo `2^8`, `2^64`;
  `int64` is `Int` in the range `[-2^63, 2^63)`.
* `*big.Int`, `*MosaicId`, `*Mosaic` and `error` are nullable: `Option`.
* A Go result pair `(*T, error)` is a pair `Option T × Option SdkError`.
-/

namespace Sdk

/-! ## network_model.go -/

/-- The Go type `NetworkType`, a `uint8`. -/
abbrev NetworkType := Nat

def MainNet : NetworkType := 104
def TestNet : NetworkType := 152
def Mijin : NetworkType := 96
def MijinTest : NetworkType := 144
def NotSupportedNet : NetworkType := 0

/-- The Go conversion `byte(x)` of an unsigned integer: the low eight bits. -/
def byte (x : Nat) : Nat := x % 2 ^ 8

/-- The function `binary.LittleEndian.PutUint64(b, v)` on a fresh 8-byte
slice: `b[i] = byte(v >> (8*i))`. -/
def PutUint64 (v : Nat) : List Nat :=
  [byte v, byte (v >>> 8), byte (v >>> 16), byte (v >>> 24),
   byte (v >>> 32), byte (v >>> 40), byte (v >>> 48), byte (v >>> 56)]

/-- The function `ExtractNetworkType`: the conversion `NetworkType(b[1])` of
byte index 1 of the little-endian encoding of `version`. -/
def ExtractNetworkType (version : Nat) : NetworkType :=
  let b := PutUint64 version
  b.getD 1 0

/-- The five tags declared by the `NetworkType` constant block. -/
def namedTags : List NetworkType :=
  [MainNet, TestNet, Mijin, MijinTest, NotSupportedNet]

/-! ### Go `strings` and `unicode` functions used by the SDK -/

/-- The constant `utf8.RuneSelf`: runes below it are single ASCII bytes. -/
def RuneSelf : Nat := 0x80

/-- The byte test `'a' <= c && c <= 'z'`. -/
def isLowerAscii (c : Char) : Bool := decide (97 ≤ c.toNat) && decide (c.toNat ≤ 122)

/-- The byte test `'A' <= c && c <= 'Z'`. -/
def isUpperAscii (c : Char) : Bool := decide (65 ≤ c.toNat) && decide (c.toNat ≤ 90)

/-- The ASCII step `c -= 'a' - 'A'` applied to a lower-case ASCII letter, any
other rune being kept. -/
def asciiUpper (c : Char) : Char :=
  if isLowerAscii c then Char.ofNat (c.toNat - 32) else c

/-- The lookup `unicode.To(unicode.UpperCase, r)` for a rune above
`unicode.MaxASCII`, through the table `unicode.CaseRanges` of the Go standard
library. Exactly two entries of that table send a non-ASCII rune to an ASCII
letter: U+0131 (dotless i) to `I` and U+017F (long s) to `S`; they are
reproduced here. Every other non-ASCII rune has a non-ASCII upper case, and is
kept as it is: `NetworkTypeFromString` only compares the result with ASCII
literals, which no such rune can be part of. -/
def caseRangesUpper (r : Char) : Char :=
  if r.toNat = 0x131 then Char.ofNat 0x49
  else if r.toNat = 0x17F then Char.ofNat 0x53
  else r

/-- The function `unicode.ToUpper`: the ASCII step for `r <= MaxASCII`, the
case table otherwise. -/
def unicodeToUpper (r : Char) : Char :=
  if r.toNat ≤ 0x7F then asciiUpper r else caseRangesUpper r

/-- The function `strings.ToUpper`: a string of ASCII bytes only is returned
as it is when it has no lower-case letter and has each lower-case letter
shifted otherwise; any other string is `strings.Map(unicode.ToUpper, s)`. -/
def ToUpper (s : List Char) : List Char :=
  let isASCII := s.all (fun c => decide (c.toNat < RuneSelf))
  let hasLower := s.any isLowerAscii
  if isASCII then
    if !hasLower then s else s.map asciiUpper
  else s.map unicodeToUpper

/-- The function `strings.Contains(s, substr)`: `substr` starts at some
position of `s`. -/
def Contains : List Char → List Char → Bool
  | [], substr => substr.isEmpty
  | c :: cs, substr => substr.isPrefixOf (c :: cs) || Contains cs substr

/-- The function `strings.Split(s, sep)` for a separator `sep` of one byte (the
SDK calls it with `":"` only): the pieces of `s` between consecutive
occurrences of `sep`, one more than there are occurrences. -/
def Split : List Char → Char → List (List Char)
  | [], _ => [[]]
  | c :: cs, sep =>
    if c = sep then [] :: Split cs sep
    else
      match Split cs sep with
      | [] => [[c]]
      | p :: ps => (c :: p) :: ps

/-- The function `NetworkTypeFromString`: a `switch` on
`strings.ToUpper(networkType)`. -/
def NetworkTypeFromString (networkType : List Char) : NetworkType :=
  let u := ToUpper networkType
  if u = "MIJIN".toList then Mijin
  else if u = "MIJIN_TEST".toList then MijinTest
  else if u = "TEST_NET".toList then TestNet
  else if u = "MAIN_NET".toList then MainNet
  else NotSupportedNet

/-- The four network names of the `switch` in `NetworkTypeFromString`, with
the tag each case returns. -/
def networkNames : List (List Char × NetworkType) :=
  [("MIJIN".toList, Mijin), ("MIJIN_TEST".toList, MijinTest),
   ("TEST_NET".toList, TestNet), ("MAIN_NET".toList, MainNet)]

/-- An ASCII rune that is not a lower-case letter: what the literals of the
`switch` in `NetworkTypeFromString` are made of. -/
def upperStable (b : Char) : Prop := b.toNat ≤ 0x7F ∧ ¬ (97 ≤ b.toNat ∧ b.toNat ≤ 122)

/-! ### Case-insensitive comparison, as the specification words it -/

/-- An ASCII letter: `A`..`Z` or `a`..`z`. -/
def isAsciiLetter (c : Char) : Bool := isUpperAscii c || isLowerAscii c

/-- Two runes are equal up to the case of ASCII letters: they are the same
rune, or the two cases of one ASCII letter. -/
def sameUpToAsciiCase (a b : Char) : Bool :=
  a == b || (isAsciiLetter a && isAsciiLetter b &&
    (a.toNat + 32 == b.toNat || b.toNat + 32 == a.toNat))

/-- Two strings are equal up to the case of their ASCII letters. -/
def eqUpToAsciiCase : List Char → List Char → Bool
  | [], [] => true
  | a :: s, b :: t => sameUpToAsciiCase a b && eqUpToAsciiCase s t
  | _, _ => false

/-- A rune `a` that Go upper-cases to the ASCII rune `b`: equal to it up to
ASCII case, or the dotless i for `I`, or the long s for `S`. -/
def upperMatches (a b : Char) : Bool :=
  sameUpToAsciiCase a b || (a.toNat == 0x131 && b.toNat == 0x49) ||
    (a.toNat == 0x17F && b.toNat == 0x53)

/-- The relation `upperMatches` rune by rune on two strings of one length. -/
def eqUpToGoUpper : List Char → List Char → Bool
  | [], [] => true
  | a :: s, b :: t => upperMatches a b && eqUpToGoUpper s t
  | _, _ => false

/-! ## mosaic_model.go -/

/-- The Go type `MosaicId`, a `big.Int`. -/
abbrev MosaicId := Int

/-- Modelled from the spec: the error values `ErrInvalidMosaicName`,
`ErrNilMosaicId` and `ErrNilMosaicAmount` are declared in a file that is not
among the sources; the specification lists them as three distinct error kinds
(InvalidName, NilId, NilOrZeroAmount). `other` stands for any further error
value the derivation collaborator may return. -/
inductive SdkError
  | ErrInvalidMosaicName
  | ErrNilMosaicId
  | ErrNilMosaicAmount
  | other (msg : List Char)
  deriving DecidableEq, Repr

/-- The result of a Go function returning `(*MosaicId, error)`. -/
abbrev IdResult := Option MosaicId × Option SdkError

/-- The function `NewMosaicIdFromFullName`. The derivation collaborator
`generateMosaicId` is not among the sources and is a parameter. -/
def NewMosaicIdFromFullName (generateMosaicId : List Char → List Char → IdResult)
    (name : List Char) : IdResult :=
  if name.length = 0 || Contains name [' ', '{'] then
    (none, some SdkError.ErrInvalidMosaicName)
  else
    let parts := Split name ':'
    if parts.length ≠ 2 then
      (none, some SdkError.ErrInvalidMosaicName)
    else
      generateMosaicId (parts.getD 0 []) (parts.getD 1 [])

/-- The Go struct `Mosaic`. -/
structure Mosaic where
  MosaicId : Option MosaicId
  Amount : Option Int
  deriving DecidableEq, Repr

/-- Modelled from the spec: `utils.EqualsBigInts` is not among the sources;
the specification describes the guard it implements in `NewMosaic` as "amount
numerically equal to zero", so on two present integers it is numeric
equality. -/
def EqualsBigInts (first second : Int) : Bool := decide (first = second)

/-- The function `NewMosaic`. -/
def NewMosaic (mosaicId : Option MosaicId) (amount : Option Int) :
    Option Mosaic × Option SdkError :=
  if mosaicId = none then
    (none, some SdkError.ErrNilMosaicId)
  else
    match amount with
    | none => (none, some SdkError.ErrNilMosaicAmount)
    | some a =>
      if EqualsBigInts a 0 then
        (none, some SdkError.ErrNilMosaicAmount)
      else
        (some { MosaicId := mosaicId, Amount := amount }, none)

/-- An `int64` value. -/
def isInt64 (a : Int) : Prop := -2 ^ 63 ≤ a ∧ a < 2 ^ 63

instance (a : Int) : Decidable (isInt64 a) := by
  unfold isInt64
  exact inferInstance

/-- The Go conversion `int64(u)` of a `uint64` value `u`. -/
def int64OfUint64 (u : Nat) : Int :=
  if u < 2 ^ 63 then (u : Int) else (u : Int) - 2 ^ 64

/-- The Go negation `-v` of an `int64`, which wraps at `-2^63`. -/
def negInt64 (v : Int) : Int :=
  if v = -2 ^ 63 then v else -v

/-- The method `(*big.Int).Int64`: `int64(low64(x.abs))`, negated when `x` is
negative. -/
def Int64 (x : Int) : Int :=
  let v := int64OfUint64 (x.natAbs % 2 ^ 64)
  if x < 0 then negInt64 v else v

/-- The function `Xem`: `&Mosaic{XemMosaicId, big.NewInt(amount)}`. The
package variable `XemMosaicId` is not among the sources and is a parameter. -/
def Xem (XemMosaicId : Option MosaicId) (amount : Int) : Mosaic :=
  { MosaicId := XemMosaicId, Amount := some amount }

/-- The function `XemRelative`:
`Xem(big.NewInt(0).Mul(big.NewInt(1000000), big.NewInt(amount)).Int64())`. -/
def XemRelative (XemMosaicId : Option MosaicId) (amount : Int) : Mosaic :=
  Xem XemMosaicId (Int64 (1000000 * amount))

/-- The invariant of an asset value on its amount: present and not zero. -/
def amountValid (m : Mosaic) : Prop := ∃ a : Int, m.Amount = some a ∧ a ≠ 0

/-- Modelled from the spec: the helper `bigIntToMosaicId` is not among the
sources; the specification describes the identifier as a wrapper of the
integer it is built from, so the helper is the pointer conversion
`(*MosaicId)(id)`: a present identifier with the value of `id`. -/
def bigIntToMosaicId (id : Int) : Option MosaicId := some id

/-- The function `NewMosaicId`. -/
def NewMosaicId (id : Option Int) : IdResult :=
  match id with
  | none => (none, some SdkError.ErrNilMosaicId)
  | some v => (bigIntToMosaicId v, none)

/-- The method `(*big.Int).String`, which is `x.Text(10)`: `"<nil>"` for a nil
receiver, otherwise the digits of the absolute value in base ten, most
significant first, after a minus sign when `x` is negative. -/
def bigIntString (x : Option Int) : List Char :=
  match x with
  | none => "<nil>".toList
  | some v =>
    if v < 0 then '-' :: Nat.toDigits 10 v.natAbs else Nat.toDigits 10 v.natAbs

/-- The method `(*MosaicId).String`: `(*big.Int)(m).String()`. -/
def MosaicId.String (m : Option MosaicId) : List Char := bigIntString m

/-- The number a string of decimal digits denotes, read from the most
significant digit. -/
def decimalValue (ds : List Char) : Nat :=
  ds.foldl (fun acc c => 10 * acc + (c.toNat - 48)) 0

/-- A decimal digit `0`..`9`. -/
def isDecimalDigit (c : Char) : Prop := 48 ≤ c.toNat ∧ c.toNat ≤ 57

/-- The decimal numeral of a natural number, as the specification understands
"the decimal representation": a non-empty string of decimal digits with no
leading zero, the numeral `0` itself apart. -/
def isCanonicalDecimal (ds : List Char) : Prop :=
  ds ≠ [] ∧ (∀ c ∈ ds, isDecimalDigit c) ∧ (ds.head? = some '0' → ds = ['0'])

/-- The Go struct `MosaicProperties`. -/
structure MosaicProperties where
  SupplyMutable : Bool
  Transferable : Bool
  LevyMutable : Bool
  Divisibility : Int
  Duration : Option Int
  deriving DecidableEq, Repr

/-- The function `NewMosaicProperties`: the struct literal with the five
arguments in order. -/
def NewMosaicProperties (supplyMutable transferable levyMutable : Bool)
    (divisibility : Int) (duration : Option Int) : MosaicProperties :=
  let ref : MosaicProperties :=
    ⟨supplyMutable, transferable, levyMutable, divisibility, duration⟩
  ref

/-- The Go struct `MosaicInfo`. The types `NamespaceInfo` and `PublicAccount`
are declared outside the sources and are parameters. -/
structure MosaicInfo (NamespaceInfo PublicAccount : Type) where
  MosaicId : Option MosaicId
  FullName : List Char
  Active : Bool
  Index : Int
  MetaId : List Char
  Namespace : Option NamespaceInfo
  Supply : Option Int
  Height : Option Int
  Owner : Option PublicAccount
  Properties : Option MosaicProperties

/-- The method `(*MosaicInfo).ShortName`. -/
def MosaicInfo.ShortName {NamespaceInfo PublicAccount : Type}
    (m : MosaicInfo NamespaceInfo PublicAccount) : List Char :=
  let parts := Split m.FullName ':'
  if parts.length ≠ 2 then
    []
  else
    parts.getD 1 []

/-- A `MosaicInfo` with the given `FullName` and every other field empty, for
evaluating `ShortName` at concrete names. -/
def infoNamed (fullName : List Char) : MosaicInfo Unit Unit :=
  { MosaicId := none, FullName := fullName, Active := false, Index := 0, MetaId := [],
    Namespace := none, Supply := none, Height := none, Owner := none, Properties := none }

/-- A derivation collaborator that reports whether its second argument is the
string `expected`: identifier `1` when it is, `0` when it is not. -/
def localProbe (expected : List Char) (_parent loc : List Char) : IdResult :=
  (some (if loc = expected then 1 else 0), none)

/-- A total derivation collaborator, for evaluating `NewMosaicIdFromFullName`
at concrete names: it answers every pair of segments with the identifier made
of their lengths. -/
def lengthsId (parent loc : List Char) : IdResult :=
  (some (1000 * (parent.length : Int) + loc.length), none)

/-! ## Theorems: network_model.go -/

theorem ExtractNetworkType_eq (v : Nat) : ExtractNetworkType v = v / 256 % 256 := by
  simp [ExtractNetworkType, PutUint64, byte, Nat.shiftRight_eq_div_pow]

/-- C1 (as stated, refuted): version `256` has byte index 1 equal to `1`, which
is none of 104, 152, 96, 144, yet the result is `1`: not `NotSupportedNet` and
not one of the five named tags. -/
theorem ExtractNetworkType_not_in_table :
    256 < 2 ^ 64 ∧ 256 / 256 % 256 = 1 ∧ ExtractNetworkType 256 = 1 ∧
      ExtractNetworkType 256 ≠ NotSupportedNet ∧ ExtractNetworkType 256 ∉ namedTags := by
  decide

/-- C1 (amended): for every 64-bit version `v`, `ExtractNetworkType v` is byte
index 1 of the little-endian encoding of `v`, converted as it is: it is
`MainNet`, `TestNet`, `Mijin`, `MijinTest` when that byte is 104, 152, 96, 144,
it is `NotSupportedNet` exactly when the byte is 0, and it is one of the five
named tags exactly when the byte is one of 104, 152, 96, 144, 0; any other byte
is returned unchanged as a value below 256. -/
theorem ExtractNetworkType_table (v : Nat) (hv : v < 2 ^ 64) :
    ExtractNetworkType v = v / 256 % 256 ∧
    (v / 256 % 256 = 104 → ExtractNetworkType v = MainNet) ∧
    (v / 256 % 256 = 152 → ExtractNetworkType v = TestNet) ∧
    (v / 256 % 256 = 96 → ExtractNetworkType v = Mijin) ∧
    (v / 256 % 256 = 144 → ExtractNetworkType v = MijinTest) ∧
    (ExtractNetworkType v = NotSupportedNet ↔ v / 256 % 256 = 0) ∧
    (ExtractNetworkType v ∈ namedTags ↔ v / 256 % 256 ∈ [104, 152, 96, 144, 0]) ∧
    ExtractNetworkType v < 256 := by
  have _ := hv
  rw [ExtractNetworkType_eq]
  refine ⟨rfl, fun h => h, fun h => h, fun h => h, fun h => h, Iff.rfl, ?_, ?_⟩
  · simp [namedTags, MainNet, TestNet, Mijin, MijinTest, NotSupportedNet]
  · exact Nat.mod_lt _ (by decide)

theorem ExtractNetworkType_table_witness :
    ExtractNetworkType 0x6801 = MainNet ∧ ExtractNetworkType 0x0302 ∉ namedTags := by
  have h1 := ExtractNetworkType_table 0x6801 (by decide)
  have h2 := ExtractNetworkType_table 0x0302 (by decide)
  exact ⟨h1.2.1 (by decide), fun h => absurd (h2.2.2.2.2.2.2.1.mp h) (by decide)⟩

/-- C2: for every 64-bit version `v`, the numeric value of
`ExtractNetworkType v` is `(v / 256) mod 256`, that is bits 8..15 of `v`; so
two versions that agree on bits 8..15 give the same result. -/
theorem ExtractNetworkType_bits (v w : Nat) (hv : v < 2 ^ 64) (hw : w < 2 ^ 64) :
    ExtractNetworkType v = v / 256 % 256 ∧
    (∀ i, i < 8 → (ExtractNetworkType v).testBit i = v.testBit (8 + i)) ∧
    (∀ i, 8 ≤ i → (ExtractNetworkType v).testBit i = false) ∧
    ((∀ i, i < 8 → v.testBit (8 + i) = w.testBit (8 + i)) →
      ExtractNetworkType v = ExtractNetworkType w) := by
  have _ := hv
  have _ := hw
  have key : ∀ u : Nat, ∀ i, (ExtractNetworkType u).testBit i
      = (decide (i < 8) && u.testBit (8 + i)) := by
    intro u i
    rw [ExtractNetworkType_eq]
    have h1 : (256 : Nat) = 2 ^ 8 := by norm_num
    rw [h1, Nat.testBit_mod_two_pow, ← Nat.shiftRight_eq_div_pow, Nat.testBit_shiftRight]
  refine ⟨ExtractNetworkType_eq v, ?_, ?_, ?_⟩
  · intro i hi
    simp [key, hi]
  · intro i hi
    have : ¬ i < 8 := by omega
    simp [key, this]
  · intro h
    apply Nat.eq_of_testBit_eq
    intro i
    rw [key, key]
    by_cases hi : i < 8
    · simp [hi, h i hi]
    · simp [hi]

theorem ExtractNetworkType_bits_witness :
    ExtractNetworkType 0x6801 = 0x68 ∧
      ExtractNetworkType 0x6801 = ExtractNetworkType 0xFFFFFFFFFFFF68FF := by
  have h := ExtractNetworkType_bits 0x6801 0xFFFFFFFFFFFF68FF (by decide) (by decide)
  exact ⟨h.1, h.2.2.2 (by decide)⟩

/-! ## Lemmas on `Split` and `Contains` -/

theorem Split_cons (c : Char) (cs : List Char) (sep : Char) :
    Split (c :: cs) sep =
      if c = sep then [] :: Split cs sep
      else
        match Split cs sep with
        | [] => [[c]]
        | p :: ps => (c :: p) :: ps := by
  rw [Split]

theorem Contains_cons (c : Char) (cs substr : List Char) :
    Contains (c :: cs) substr = (substr.isPrefixOf (c :: cs) || Contains cs substr) := by
  rw [Contains]

theorem Split_ne_nil (s : List Char) (sep : Char) : Split s sep ≠ [] := by
  cases s with
  | nil => simp [Split]
  | cons c cs =>
    unfold Split
    split
    · simp
    · split <;> simp

theorem Split_length (s : List Char) (sep : Char) :
    (Split s sep).length = s.count sep + 1 := by
  induction s with
  | nil => simp [Split]
  | cons c cs ih =>
    unfold Split
    by_cases h : c = sep
    · subst h
      simp [ih]
    · have hne := Split_ne_nil cs sep
      rw [if_neg h, List.count_cons_of_ne (fun e => h e.symm)]
      split
      · rename_i heq
        exact absurd heq hne
      · rename_i q qs heq
        rw [heq] at ih
        simpa using ih

theorem Split_not_mem (s : List Char) (sep : Char) (h : sep ∉ s) : Split s sep = [s] := by
  induction s with
  | nil => simp [Split]
  | cons c cs ih =>
    have hc : c ≠ sep := fun e => h (by simp [e])
    have hcs : sep ∉ cs := fun e => h (List.mem_cons_of_mem _ e)
    unfold Split
    rw [if_neg hc, ih hcs]

theorem Split_append (p l : List Char) (sep : Char) (h : sep ∉ p) :
    Split (p ++ sep :: l) sep = p :: Split l sep := by
  induction p with
  | nil => simp [Split]
  | cons c cs ih =>
    have hc : c ≠ sep := fun e => h (by simp [e])
    have hcs : sep ∉ cs := fun e => h (List.mem_cons_of_mem _ e)
    rw [List.cons_append, Split_cons, if_neg hc, ih hcs]

theorem Contains_brace_append (p l : List Char) :
    Contains (p ++ ':' :: l) [' ', '{'] =
      (Contains p [' ', '{'] || Contains l [' ', '{']) := by
  induction p with
  | nil => simp [Contains, List.isPrefixOf]
  | cons c cs ih =>
    rw [List.cons_append, Contains_cons, Contains_cons, ih]
    cases cs with
    | nil => simp [List.isPrefixOf, Contains]
    | cons d ds => simp [List.isPrefixOf, Bool.or_assoc]

theorem count_one_split (s : List Char) (sep : Char) (h : s.count sep = 1) :
    ∃ p l, s = p ++ sep :: l ∧ sep ∉ p ∧ sep ∉ l := by
  have hmem : sep ∈ s := List.count_pos_iff.mp (by omega)
  obtain ⟨p, l, rfl⟩ := List.append_of_mem hmem
  refine ⟨p, l, rfl, ?_, ?_⟩
  · apply List.count_eq_zero.mp
    simp [List.count_append] at h
    omega
  · apply List.count_eq_zero.mp
    simp [List.count_append] at h
    omega

/-! ## Theorems: NewMosaicIdFromFullName -/

theorem NewMosaicIdFromFullName_parts (gen : List Char → List Char → IdResult)
    (p l : List Char) (hp : ':' ∉ p) (hl : ':' ∉ l)
    (hb : Contains (p ++ ':' :: l) [' ', '{'] = false) :
    NewMosaicIdFromFullName gen (p ++ ':' :: l) = gen p l := by
  have hs : Split (p ++ ':' :: l) ':' = [p, l] := by
    rw [Split_append p l ':' hp, Split_not_mem l ':' hl]
  simp [NewMosaicIdFromFullName, hb, hs]

theorem NewMosaicIdFromFullName_invalid (gen : List Char → List Char → IdResult)
    (name : List Char)
    (h : name = [] ∨ Contains name [' ', '{'] = true ∨ name.count ':' ≠ 1) :
    NewMosaicIdFromFullName gen name = (none, some SdkError.ErrInvalidMosaicName) := by
  unfold NewMosaicIdFromFullName
  by_cases h1 : (name.length = 0 || Contains name [' ', '{']) = true
  · rw [if_pos h1]
  · rw [if_neg h1]
    have hlen : (Split name ':').length ≠ 2 := by
      rw [Split_length]
      rcases h with h | h | h
      · simp [h] at h1
      · simp [h] at h1
      · omega
    simp [hlen]

/-- C3 (as stated, refuted): the segments `" {"` and `"x"` are non-empty and
hold no colon, the collaborator `lengthsId` is total, and yet the name
`" {:x"` is rejected with `ErrInvalidMosaicName`. -/
theorem NewMosaicIdFromFullName_brace_segment :
    [' ', '{'] ≠ [] ∧ ['x'] ≠ [] ∧ ':' ∉ [' ', '{'] ∧ ':' ∉ ['x'] ∧
      (∀ a b, ∃ id, lengthsId a b = (some id, none)) ∧
      NewMosaicIdFromFullName lengthsId ([' ', '{'] ++ ':' :: ['x'])
        = (none, some SdkError.ErrInvalidMosaicName) := by
  refine ⟨by decide, by decide, by decide, by decide, fun a b => ⟨_, rfl⟩, by decide⟩

/-- C3 (amended): for all non-empty strings `p` and `l` that contain no colon
and no space followed by an opening brace, and for a total derivation
collaborator, `NewMosaicIdFromFullName (p ++ ":" ++ l)` returns an identifier
and no error; the identifier is the one the collaborator gives for `(p, l)`, so
two calls with the same `p` and `l` return equal identifiers. -/
theorem NewMosaicIdFromFullName_succeeds (gen : List Char → List Char → IdResult)
    (p l : List Char) (htotal : ∀ a b, ∃ id, gen a b = (some id, none))
    (hp : p ≠ []) (hl : l ≠ []) (hpc : ':' ∉ p) (hlc : ':' ∉ l)
    (hpb : Contains p [' ', '{'] = false) (hlb : Contains l [' ', '{'] = false) :
    ∃ id, NewMosaicIdFromFullName gen (p ++ ':' :: l) = (some id, none) ∧
      gen p l = (some id, none) := by
  have _ := hp
  have _ := hl
  obtain ⟨id, hid⟩ := htotal p l
  refine ⟨id, ?_, hid⟩
  rw [NewMosaicIdFromFullName_parts gen p l hpc hlc, hid]
  rw [Contains_brace_append, hpb, hlb]
  rfl

theorem NewMosaicIdFromFullName_succeeds_witness :
    ∃ id, NewMosaicIdFromFullName lengthsId ("nem".toList ++ ':' :: "xem".toList)
        = (some id, none) ∧
      lengthsId "nem".toList "xem".toList = (some id, none) :=
  NewMosaicIdFromFullName_succeeds lengthsId "nem".toList "xem".toList
    (fun _ _ => ⟨_, rfl⟩) (by decide) (by decide) (by decide) (by decide)
    (by decide) (by decide)

/-- C4: a name that is empty, or contains a space followed by an opening brace,
or does not contain exactly one colon, is rejected: no identifier and the error
`ErrInvalidMosaicName`, whatever the derivation collaborator is, so the
collaborator is not consulted; in particular for `""`, `"no-colon-here"` and
`"a:b:c"`. -/
theorem NewMosaicIdFromFullName_rejects (gen : List Char → List Char → IdResult)
    (name : List Char)
    (h : name = [] ∨ Contains name [' ', '{'] = true ∨ name.count ':' ≠ 1) :
    NewMosaicIdFromFullName gen name = (none, some SdkError.ErrInvalidMosaicName) ∧
    NewMosaicIdFromFullName gen [] = (none, some SdkError.ErrInvalidMosaicName) ∧
    NewMosaicIdFromFullName gen "no-colon-here".toList
      = (none, some SdkError.ErrInvalidMosaicName) ∧
    NewMosaicIdFromFullName gen "a:b:c".toList
      = (none, some SdkError.ErrInvalidMosaicName) := by
  refine ⟨NewMosaicIdFromFullName_invalid gen name h, ?_, ?_, ?_⟩
  · exact NewMosaicIdFromFullName_invalid gen _ (Or.inl rfl)
  · exact NewMosaicIdFromFullName_invalid gen _ (Or.inr (Or.inr (by decide)))
  · exact NewMosaicIdFromFullName_invalid gen _ (Or.inr (Or.inr (by decide)))

theorem NewMosaicIdFromFullName_rejects_witness :
    NewMosaicIdFromFullName lengthsId "nem:a \x7bb".toList
      = (none, some SdkError.ErrInvalidMosaicName) :=
  (NewMosaicIdFromFullName_rejects lengthsId "nem:a \x7bb".toList
    (Or.inr (Or.inl (by decide)))).1

/-- C5: a name that is non-empty, has no space followed by an opening brace
and has exactly one colon splits as `parent ++ ":" ++ local` with no colon in
either segment, and `NewMosaicIdFromFullName` returns exactly what the
derivation collaborator returns for `(parent, local)`; the segments are not
checked for emptiness, so `":"`, `"a:"` and `":b"` reach the collaborator with
an empty segment. -/
theorem NewMosaicIdFromFullName_accepts (gen : List Char → List Char → IdResult)
    (name : List Char) (hne : name ≠ [])
    (hb : Contains name [' ', '{'] = false) (hc : name.count ':' = 1) :
    (∃ parent loc, name = parent ++ ':' :: loc ∧ ':' ∉ parent ∧ ':' ∉ loc ∧
      NewMosaicIdFromFullName gen name = gen parent loc) ∧
    NewMosaicIdFromFullName gen ":".toList = gen [] [] ∧
    NewMosaicIdFromFullName gen "a:".toList = gen "a".toList [] ∧
    NewMosaicIdFromFullName gen ":b".toList = gen [] "b".toList := by
  have _ := hne
  refine ⟨?_, rfl, rfl, rfl⟩
  obtain ⟨p, l, rfl, hp, hl⟩ := count_one_split name ':' hc
  exact ⟨p, l, rfl, hp, hl, NewMosaicIdFromFullName_parts gen p l hp hl hb⟩

theorem NewMosaicIdFromFullName_accepts_witness :
    ∃ parent loc, "nem:xem".toList = parent ++ ':' :: loc ∧ ':' ∉ parent ∧ ':' ∉ loc ∧
      NewMosaicIdFromFullName lengthsId "nem:xem".toList = lengthsId parent loc :=
  (NewMosaicIdFromFullName_accepts lengthsId "nem:xem".toList
    (by decide) (by decide) (by decide)).1

/-! ## Theorems: NewMosaic, Xem, XemRelative -/

theorem Int64_eq (x : Int) : Int64 x = (x + 2 ^ 63) % 2 ^ 64 - 2 ^ 63 := by
  unfold Int64 int64OfUint64 negInt64
  simp only []
  split_ifs <;> omega

theorem Int64_million_eq_zero (a : Int) :
    Int64 (1000000 * a) = 0 ↔ (2 ^ 58 : Int) ∣ a := by
  rw [Int64_eq]
  omega

theorem amountValid_iff (m : Mosaic) (a : Int) (h : m.Amount = some a) :
    amountValid m ↔ a ≠ 0 := by
  unfold amountValid
  constructor
  · rintro ⟨b, hb, hne⟩
    rw [h] at hb
    cases hb
    exact hne
  · intro hne
    exact ⟨a, h, hne⟩

/-- C6: for every present identifier `id` and every present amount `a` that is
not zero, negative amounts included, `NewMosaic id a` returns no error and a
`Mosaic` whose `MosaicId` is `id` and whose `Amount` is `a`. -/
theorem NewMosaic_succeeds (id : MosaicId) (a : Int) (ha : a ≠ 0) :
    NewMosaic (some id) (some a) = (some { MosaicId := some id, Amount := some a }, none) := by
  simp [NewMosaic, EqualsBigInts, ha]

theorem NewMosaic_succeeds_witness :
    NewMosaic (some 7) (some (-5)) = (some { MosaicId := some 7, Amount := some (-5) }, none) :=
  NewMosaic_succeeds 7 (-5) (by decide)

/-- C7: `NewMosaic id amount` returns an error exactly when `id` is absent, or
`amount` is absent, or `amount` is zero; the error is `ErrNilMosaicId` if and
only if `id` is absent, it is `ErrNilMosaicAmount` if and only if `id` is
present and `amount` is absent or zero; a call that returns an error returns no
`Mosaic`, and a call that returns no error returns one. -/
theorem NewMosaic_fails (id : Option MosaicId) (amount : Option Int) :
    ((NewMosaic id amount).2 ≠ none ↔ (id = none ∨ amount = none ∨ amount = some 0)) ∧
    ((NewMosaic id amount).2 = some SdkError.ErrNilMosaicId ↔ id = none) ∧
    ((NewMosaic id amount).2 = some SdkError.ErrNilMosaicAmount ↔
      (id ≠ none ∧ (amount = none ∨ amount = some 0))) ∧
    ((NewMosaic id amount).2 ≠ none ↔ (NewMosaic id amount).1 = none) := by
  cases id with
  | none => simp [NewMosaic]
  | some i =>
    cases amount with
    | none => simp [NewMosaic]
    | some a =>
      by_cases ha : a = 0
      · simp [NewMosaic, EqualsBigInts, ha]
      · simp [NewMosaic, EqualsBigInts, ha]

theorem Int64_of_isInt64 (x : Int) (h : isInt64 x) : Int64 x = x := by
  rw [Int64_eq]
  unfold isInt64 at h
  omega

/-- C8 (as stated, refuted): `0` is an `int64`, and the `Amount` of `Xem 0`
and of `XemRelative 0` is present but zero. -/
theorem Xem_zero_amount :
    isInt64 0 ∧ (Xem (some 0xD525AD41D95FCF29) 0).Amount = some 0 ∧
      (XemRelative (some 0xD525AD41D95FCF29) 0).Amount = some 0 ∧
      ¬ amountValid (Xem (some 0xD525AD41D95FCF29) 0) ∧
      ¬ amountValid (XemRelative (some 0xD525AD41D95FCF29) 0) := by
  refine ⟨by decide, rfl, by decide, ?_, ?_⟩
  · rw [amountValid_iff _ 0 rfl]
    decide
  · rw [amountValid_iff _ 0 (by decide)]
    decide

/-- C8 (amended): every `Mosaic` that `NewMosaic` returns has an `Amount` that
is present and not zero; for every `int64` amount `a`, the `Amount` of `Xem a`
and of `XemRelative a` is present, that of `Xem a` is not zero exactly when
`a` is not zero, and, when `1000000 * a` is an `int64` too, that of
`XemRelative a` is not zero exactly when `a` is not zero. -/
theorem Mosaic_amount_invariant (xemId id : Option MosaicId) (amount : Option Int)
    (a : Int) (ha : isInt64 a) :
    (∀ m, (NewMosaic id amount).1 = some m → amountValid m) ∧
    (Xem xemId a).Amount ≠ none ∧
    (XemRelative xemId a).Amount ≠ none ∧
    (amountValid (Xem xemId a) ↔ a ≠ 0) ∧
    (isInt64 (1000000 * a) → (amountValid (XemRelative xemId a) ↔ a ≠ 0)) := by
  have _ := ha
  refine ⟨?_, by simp [Xem], by simp [XemRelative, Xem], ?_, ?_⟩
  · intro m hm
    cases id with
    | none => simp [NewMosaic] at hm
    | some i =>
      cases amount with
      | none => simp [NewMosaic] at hm
      | some b =>
        by_cases hb : b = 0
        · simp [NewMosaic, EqualsBigInts, hb] at hm
        · simp [NewMosaic, EqualsBigInts, hb] at hm
          subst hm
          exact ⟨b, rfl, hb⟩
  · exact amountValid_iff _ a rfl
  · intro hfit
    rw [amountValid_iff (XemRelative xemId a) (Int64 (1000000 * a)) rfl,
      Int64_of_isInt64 _ hfit]
    omega

theorem Mosaic_amount_invariant_witness :
    amountValid (Xem (some 0xD525AD41D95FCF29) 3) ∧
      amountValid (XemRelative (some 0xD525AD41D95FCF29) (-3)) := by
  have h1 := Mosaic_amount_invariant (some 0xD525AD41D95FCF29) none none 3 (by decide)
  have h2 := Mosaic_amount_invariant (some 0xD525AD41D95FCF29) none none (-3) (by decide)
  exact ⟨h1.2.2.2.1.mpr (by decide), h2.2.2.2.2 (by decide) |>.mpr (by decide)⟩

/-! ## Lemmas on `ToUpper` -/

theorem toNat_ofNat_small (n : Nat) (h : n < 0xD800) : (Char.ofNat n).toNat = n := by
  have hv : n.isValidChar := Or.inl h
  unfold Char.ofNat
  rw [dif_pos hv]
  rfl

theorem char_eq_iff (a b : Char) : a = b ↔ a.toNat = b.toNat := by
  constructor
  · intro h
    rw [h]
  · intro h
    rw [← Char.ofNat_toNat a, ← Char.ofNat_toNat b, h]

theorem asciiUpper_toNat (c : Char) :
    (asciiUpper c).toNat = if 97 ≤ c.toNat ∧ c.toNat ≤ 122 then c.toNat - 32 else c.toNat := by
  unfold asciiUpper isLowerAscii
  by_cases h : 97 ≤ c.toNat ∧ c.toNat ≤ 122
  · rw [if_pos h, if_pos (by simp [h])]
    exact toNat_ofNat_small _ (by omega)
  · rw [if_neg h, if_neg (by simpa using h)]

theorem caseRangesUpper_toNat (c : Char) :
    (caseRangesUpper c).toNat =
      if c.toNat = 0x131 then 0x49 else if c.toNat = 0x17F then 0x53 else c.toNat := by
  unfold caseRangesUpper
  split_ifs
  · exact toNat_ofNat_small _ (by decide)
  · exact toNat_ofNat_small _ (by decide)
  · rfl

theorem unicodeToUpper_toNat (c : Char) :
    (unicodeToUpper c).toNat =
      if c.toNat ≤ 0x7F then
        (if 97 ≤ c.toNat ∧ c.toNat ≤ 122 then c.toNat - 32 else c.toNat)
      else if c.toNat = 0x131 then 0x49 else if c.toNat = 0x17F then 0x53 else c.toNat := by
  unfold unicodeToUpper
  split_ifs <;> simp_all [asciiUpper_toNat, caseRangesUpper_toNat]

theorem upperMatches_iff (a b : Char) :
    upperMatches a b = true ↔
      (a.toNat = b.toNat ∨
        (((65 ≤ a.toNat ∧ a.toNat ≤ 90) ∨ (97 ≤ a.toNat ∧ a.toNat ≤ 122)) ∧
         ((65 ≤ b.toNat ∧ b.toNat ≤ 90) ∨ (97 ≤ b.toNat ∧ b.toNat ≤ 122)) ∧
         (a.toNat + 32 = b.toNat ∨ b.toNat + 32 = a.toNat))) ∨
      (a.toNat = 0x131 ∧ b.toNat = 0x49) ∨ (a.toNat = 0x17F ∧ b.toNat = 0x53) := by
  simp [upperMatches, sameUpToAsciiCase, isAsciiLetter, isUpperAscii, isLowerAscii,
    char_eq_iff a b, or_assoc, and_assoc]

theorem sameUpToAsciiCase_iff (a b : Char) :
    sameUpToAsciiCase a b = true ↔
      (a.toNat = b.toNat ∨
        (((65 ≤ a.toNat ∧ a.toNat ≤ 90) ∨ (97 ≤ a.toNat ∧ a.toNat ≤ 122)) ∧
         ((65 ≤ b.toNat ∧ b.toNat ≤ 90) ∨ (97 ≤ b.toNat ∧ b.toNat ≤ 122)) ∧
         (a.toNat + 32 = b.toNat ∨ b.toNat + 32 = a.toNat))) := by
  simp [sameUpToAsciiCase, isAsciiLetter, isUpperAscii, isLowerAscii, char_eq_iff a b,
    and_assoc]

theorem unicodeToUpper_eq_iff (a b : Char) (hb : upperStable b) :
    unicodeToUpper a = b ↔ upperMatches a b = true := by
  rw [char_eq_iff, unicodeToUpper_toNat, upperMatches_iff]
  unfold upperStable at hb
  split_ifs <;> omega

theorem map_unicodeToUpper_eq_iff (s t : List Char) (ht : ∀ b ∈ t, upperStable b) :
    s.map unicodeToUpper = t ↔ eqUpToGoUpper s t = true := by
  induction s generalizing t with
  | nil => cases t <;> simp [eqUpToGoUpper]
  | cons a s ih =>
    cases t with
    | nil => simp [eqUpToGoUpper]
    | cons b t =>
      have hb : upperStable b := ht b (by simp)
      have ht2 : ∀ c ∈ t, upperStable c := fun c hc => ht c (List.mem_cons_of_mem _ hc)
      simp [eqUpToGoUpper, unicodeToUpper_eq_iff a b hb, ih t ht2]

theorem ToUpper_eq_map (s : List Char) : ToUpper s = s.map unicodeToUpper := by
  unfold ToUpper
  simp only []
  by_cases hA : (s.all fun c => decide (c.toNat < RuneSelf)) = true
  · rw [if_pos hA]
    have hasc : ∀ c ∈ s, c.toNat ≤ 0x7F := by
      intro c hc
      have := List.all_eq_true.mp hA c hc
      simp [RuneSelf] at this
      omega
    have hmap : s.map asciiUpper = s.map unicodeToUpper := by
      apply List.map_congr_left
      intro c hc
      simp [unicodeToUpper, hasc c hc]
    by_cases hL : (!s.any isLowerAscii) = true
    · rw [if_pos hL, ← hmap]
      have hid : ∀ c ∈ s, asciiUpper c = c := by
        intro c hc
        have hnl : isLowerAscii c = false := by
          simp at hL
          exact hL c hc
        simp [asciiUpper, hnl]
      calc s = s.map id := by simp
        _ = s.map asciiUpper := by
          apply List.map_congr_left
          intro c hc
          simp [hid c hc]
    · rw [if_neg hL, hmap]
  · rw [if_neg hA]

theorem ToUpper_eq_iff (s t : List Char) (ht : ∀ b ∈ t, upperStable b) :
    ToUpper s = t ↔ eqUpToGoUpper s t = true := by
  rw [ToUpper_eq_map, map_unicodeToUpper_eq_iff s t ht]

theorem eqUpToGoUpper_of_ascii (s t : List Char) (hs : ∀ c ∈ s, c.toNat < RuneSelf) :
    eqUpToGoUpper s t = eqUpToAsciiCase s t := by
  induction s generalizing t with
  | nil => cases t <;> simp [eqUpToGoUpper, eqUpToAsciiCase]
  | cons a s ih =>
    cases t with
    | nil => simp [eqUpToGoUpper, eqUpToAsciiCase]
    | cons b t =>
      have ha : a.toNat < RuneSelf := hs a (by simp)
      have hs2 : ∀ c ∈ s, c.toNat < RuneSelf := fun c hc => hs c (List.mem_cons_of_mem _ hc)
      have hab : upperMatches a b = sameUpToAsciiCase a b := by
        rw [Bool.eq_iff_iff, upperMatches_iff, sameUpToAsciiCase_iff]
        unfold RuneSelf at ha
        omega
      simp [eqUpToGoUpper, eqUpToAsciiCase, hab, ih t hs2]

theorem eqUpToGoUpper_of_eqUpToAsciiCase (s t : List Char)
    (h : eqUpToAsciiCase s t = true) : eqUpToGoUpper s t = true := by
  induction s generalizing t with
  | nil => cases t <;> simp_all [eqUpToGoUpper, eqUpToAsciiCase]
  | cons a s ih =>
    cases t with
    | nil => simp [eqUpToAsciiCase] at h
    | cons b t =>
      simp only [eqUpToAsciiCase, Bool.and_eq_true] at h
      simp [eqUpToGoUpper, upperMatches, h.1, ih t h.2]

theorem networkNames_upperStable (p : List Char × NetworkType) (hp : p ∈ networkNames) :
    ∀ b ∈ p.1, upperStable b := by
  simp only [networkNames, List.mem_cons, List.mem_singleton, List.not_mem_nil, or_false] at hp
  rcases hp with rfl | rfl | rfl | rfl <;> (unfold upperStable; decide)

theorem NetworkTypeFromString_of_ToUpper (s : List Char) (p : List Char × NetworkType)
    (hp : p ∈ networkNames) (h : ToUpper s = p.1) : NetworkTypeFromString s = p.2 := by
  simp only [networkNames, List.mem_cons, List.mem_singleton, List.not_mem_nil, or_false] at hp
  unfold NetworkTypeFromString
  simp only []
  rw [h]
  rcases hp with rfl | rfl | rfl | rfl <;> decide

theorem NetworkTypeFromString_cases (s : List Char) :
    (∃ p ∈ networkNames, ToUpper s = p.1 ∧ NetworkTypeFromString s = p.2) ∨
    ((∀ p ∈ networkNames, ToUpper s ≠ p.1) ∧ NetworkTypeFromString s = NotSupportedNet) := by
  by_cases h : ∃ p ∈ networkNames, ToUpper s = p.1
  · obtain ⟨p, hp, hs⟩ := h
    exact Or.inl ⟨p, hp, hs, NetworkTypeFromString_of_ToUpper s p hp hs⟩
  · right
    have h2 : ∀ p ∈ networkNames, ToUpper s ≠ p.1 := fun p hp e => h ⟨p, hp, e⟩
    refine ⟨h2, ?_⟩
    have h3 := h2
    simp only [networkNames, List.mem_cons, List.mem_singleton, List.not_mem_nil, or_false,
      forall_eq_or_imp, forall_eq] at h3
    unfold NetworkTypeFromString
    simp only []
    rw [if_neg h3.1, if_neg h3.2.1, if_neg h3.2.2.1, if_neg h3.2.2.2]

theorem networkNames_tag_ne (p : List Char × NetworkType) (hp : p ∈ networkNames) :
    p.2 ≠ NotSupportedNet ∧ p.2 ∈ namedTags := by
  simp only [networkNames, List.mem_cons, List.mem_singleton, List.not_mem_nil, or_false] at hp
  rcases hp with rfl | rfl | rfl | rfl <;> decide

theorem NetworkTypeFromString_notSupported_iff (s : List Char) :
    NetworkTypeFromString s = NotSupportedNet ↔
      ∀ p ∈ networkNames, eqUpToGoUpper s p.1 = false := by
  rcases NetworkTypeFromString_cases s with ⟨p, hp, hs, hr⟩ | ⟨hall, hr⟩
  · constructor
    · intro h
      rw [hr] at h
      exact absurd h (networkNames_tag_ne p hp).1
    · intro h
      have := (ToUpper_eq_iff s p.1 (networkNames_upperStable p hp)).mp hs
      rw [h p hp] at this
      exact absurd this (by decide)
  · constructor
    · intro _ p hp
      have hne := hall p hp
      rw [Ne, ToUpper_eq_iff s p.1 (networkNames_upperStable p hp)] at hne
      simpa using hne
    · intro _
      exact hr

theorem forall_networkNames (P : List Char → Prop) :
    (∀ p ∈ networkNames, P p.1) ↔
      (P "MIJIN".toList ∧ P "MIJIN_TEST".toList ∧ P "TEST_NET".toList ∧ P "MAIN_NET".toList) := by
  simp [networkNames]

/-! ## Theorems: NetworkTypeFromString -/

/-- C9: a string that equals `"MIJIN"`, `"MIJIN_TEST"`, `"TEST_NET"` or
`"MAIN_NET"` up to the case of its ASCII letters is mapped by
`NetworkTypeFromString` to `Mijin` (96), `MijinTest` (144), `TestNet` (152) or
`MainNet` (104) respectively. -/
theorem NetworkTypeFromString_names (s : List Char) :
    (eqUpToAsciiCase s "MIJIN".toList = true → NetworkTypeFromString s = Mijin) ∧
    (eqUpToAsciiCase s "MIJIN_TEST".toList = true → NetworkTypeFromString s = MijinTest) ∧
    (eqUpToAsciiCase s "TEST_NET".toList = true → NetworkTypeFromString s = TestNet) ∧
    (eqUpToAsciiCase s "MAIN_NET".toList = true → NetworkTypeFromString s = MainNet) ∧
    Mijin = 96 ∧ MijinTest = 144 ∧ TestNet = 152 ∧ MainNet = 104 := by
  have key : ∀ p ∈ networkNames, eqUpToAsciiCase s p.1 = true →
      NetworkTypeFromString s = p.2 := by
    intro p hp h
    apply NetworkTypeFromString_of_ToUpper s p hp
    rw [ToUpper_eq_iff s p.1 (networkNames_upperStable p hp)]
    exact eqUpToGoUpper_of_eqUpToAsciiCase s p.1 h
  exact ⟨key ("MIJIN".toList, Mijin) (by simp [networkNames]),
    key ("MIJIN_TEST".toList, MijinTest) (by simp [networkNames]),
    key ("TEST_NET".toList, TestNet) (by simp [networkNames]),
    key ("MAIN_NET".toList, MainNet) (by simp [networkNames]), rfl, rfl, rfl, rfl⟩

theorem NetworkTypeFromString_names_witness :
    NetworkTypeFromString "mijin_test".toList = MijinTest ∧
    NetworkTypeFromString "MIJIN_TEST".toList = MijinTest ∧
    NetworkTypeFromString "Mijin_Test".toList = MijinTest ∧
    NetworkTypeFromString "main_Net".toList = MainNet :=
  ⟨(NetworkTypeFromString_names "mijin_test".toList).2.1 (by decide),
   (NetworkTypeFromString_names "MIJIN_TEST".toList).2.1 (by decide),
   (NetworkTypeFromString_names "Mijin_Test".toList).2.1 (by decide),
   (NetworkTypeFromString_names "main_Net".toList).2.2.2.1 (by decide)⟩

/-- C10 (as stated, refuted): the string `"mıjın"`, written with the dotless i
(U+0131), equals none of the four names up to the case of its ASCII letters,
yet `NetworkTypeFromString` returns `Mijin` for it, not `NotSupportedNet`:
`strings.ToUpper` sends the dotless i to `I`. -/
theorem NetworkTypeFromString_dotless_i :
    eqUpToAsciiCase "mıjın".toList "MIJIN".toList = false ∧
    eqUpToAsciiCase "mıjın".toList "MIJIN_TEST".toList = false ∧
    eqUpToAsciiCase "mıjın".toList "TEST_NET".toList = false ∧
    eqUpToAsciiCase "mıjın".toList "MAIN_NET".toList = false ∧
    ToUpper "mıjın".toList = "MIJIN".toList ∧
    NetworkTypeFromString "mıjın".toList = Mijin ∧
    NetworkTypeFromString "mıjın".toList ≠ NotSupportedNet := by
  decide

/-- C10 (amended): `NetworkTypeFromString` is total and returns one of the five
named tags; it returns `NotSupportedNet` if and only if the string matches none
of `"MIJIN"`, `"MIJIN_TEST"`, `"TEST_NET"`, `"MAIN_NET"` rune by rune, where a
rune matches a letter of the name when it is that letter in either ASCII case,
or the dotless i (U+0131) for `I`, or the long s (U+017F) for `S`; for a string
of ASCII runes only this is the exact match up to ASCII case, so the empty
string, `"unknown"` and names with an extra leading or trailing character give
`NotSupportedNet`. -/
theorem NetworkTypeFromString_total (s : List Char) :
    NetworkTypeFromString s ∈ namedTags ∧
    (NetworkTypeFromString s = NotSupportedNet ↔
      (eqUpToGoUpper s "MIJIN".toList = false ∧ eqUpToGoUpper s "MIJIN_TEST".toList = false ∧
       eqUpToGoUpper s "TEST_NET".toList = false ∧ eqUpToGoUpper s "MAIN_NET".toList = false)) ∧
    ((∀ c ∈ s, c.toNat < RuneSelf) →
      (NetworkTypeFromString s = NotSupportedNet ↔
        (eqUpToAsciiCase s "MIJIN".toList = false ∧
         eqUpToAsciiCase s "MIJIN_TEST".toList = false ∧
         eqUpToAsciiCase s "TEST_NET".toList = false ∧
         eqUpToAsciiCase s "MAIN_NET".toList = false))) ∧
    NetworkTypeFromString [] = NotSupportedNet ∧
    NetworkTypeFromString "unknown".toList = NotSupportedNet ∧
    NetworkTypeFromString " MIJIN".toList = NotSupportedNet ∧
    NetworkTypeFromString "MIJIN ".toList = NotSupportedNet := by
  refine ⟨?_, ?_, ?_, by decide, by decide, by decide, by decide⟩
  · rcases NetworkTypeFromString_cases s with ⟨p, hp, _, hr⟩ | ⟨_, hr⟩
    · rw [hr]
      exact (networkNames_tag_ne p hp).2
    · rw [hr]
      decide
  · rw [NetworkTypeFromString_notSupported_iff,
      forall_networkNames (fun n => eqUpToGoUpper s n = false)]
  · intro hs
    rw [NetworkTypeFromString_notSupported_iff,
      forall_networkNames (fun n => eqUpToGoUpper s n = false)]
    simp only [eqUpToGoUpper_of_ascii s _ hs]

/-! ## Theorems: ShortName -/

theorem ShortName_parts {N P : Type} (m : MosaicInfo N P) (p l : List Char)
    (hp : ':' ∉ p) (hl : ':' ∉ l) (h : m.FullName = p ++ ':' :: l) : m.ShortName = l := by
  have hs : Split m.FullName ':' = [p, l] := by
    rw [h, Split_append p l ':' hp, Split_not_mem l ':' hl]
  simp [MosaicInfo.ShortName, hs]

theorem ShortName_empty {N P : Type} (m : MosaicInfo N P)
    (h : m.FullName.count ':' ≠ 1) : m.ShortName = [] := by
  have hlen : (Split m.FullName ':').length ≠ 2 := by
    rw [Split_length]
    omega
  simp [MosaicInfo.ShortName, hlen]

/-- C11: for every `MosaicInfo` `m`, `m.ShortName` is the text after the colon
of `m.FullName` when `FullName` has exactly one colon (`"nem:xem"` gives
`"xem"`), and the empty string when it has no colon or more than one
(`"badname"` and `"a:b:c"` give `""`); the method is total. -/
theorem ShortName_spec {N P : Type} (m : MosaicInfo N P) :
    (m.FullName.count ':' = 1 →
      ∃ parent loc, m.FullName = parent ++ ':' :: loc ∧ ':' ∉ parent ∧ ':' ∉ loc ∧
        m.ShortName = loc) ∧
    (m.FullName.count ':' ≠ 1 → m.ShortName = []) ∧
    (infoNamed "nem:xem".toList).ShortName = "xem".toList ∧
    (infoNamed "badname".toList).ShortName = [] ∧
    (infoNamed "a:b:c".toList).ShortName = [] := by
  refine ⟨?_, ShortName_empty m, by decide, by decide, by decide⟩
  intro hc
  obtain ⟨p, l, h, hp, hl⟩ := count_one_split m.FullName ':' hc
  exact ⟨p, l, h, hp, hl, ShortName_parts m p l hp hl h⟩

/-! ## Theorems: NewMosaicId and String -/

theorem digitChar_decimal : ∀ d, d < 10 →
    ((Nat.digitChar d).toNat - 48 = d ∧ isDecimalDigit (Nat.digitChar d)) := by
  unfold isDecimalDigit
  decide

theorem decimalValue_toDigitsCore (fuel : Nat) : ∀ (n : Nat) (ds : List Char), n < fuel →
    (Nat.toDigitsCore 10 fuel n ds).foldl (fun acc c => 10 * acc + (c.toNat - 48)) 0
      = ds.foldl (fun acc c => 10 * acc + (c.toNat - 48)) n := by
  induction fuel with
  | zero => intro n ds h; omega
  | succ f ih =>
    intro n ds h
    have hd := (digitChar_decimal (n % 10) (Nat.mod_lt _ (by decide))).1
    rw [Nat.toDigitsCore]
    by_cases h0 : n / 10 = 0
    · rw [if_pos h0, List.foldl_cons, hd]
      congr 1
      omega
    · rw [if_neg h0, ih (n / 10) _ (by omega), List.foldl_cons, hd]
      congr 1
      omega

theorem isDecimalDigit_toDigitsCore (fuel : Nat) : ∀ (n : Nat) (ds : List Char),
    (∀ c ∈ ds, isDecimalDigit c) → ∀ c ∈ Nat.toDigitsCore 10 fuel n ds, isDecimalDigit c := by
  induction fuel with
  | zero =>
    intro n ds h c hc
    rw [Nat.toDigitsCore] at hc
    exact h c hc
  | succ f ih =>
    intro n ds h c hc
    have hd := (digitChar_decimal (n % 10) (Nat.mod_lt _ (by decide))).2
    have hds : ∀ c ∈ Nat.digitChar (n % 10) :: ds, isDecimalDigit c := by
      intro c hc
      rcases List.mem_cons.mp hc with rfl | hc
      · exact hd
      · exact h c hc
    rw [Nat.toDigitsCore] at hc
    by_cases h0 : n / 10 = 0
    · rw [if_pos h0] at hc
      exact hds c hc
    · rw [if_neg h0] at hc
      exact ih (n / 10) _ hds c hc

theorem toDigits_decimal (n : Nat) :
    (∀ c ∈ Nat.toDigits 10 n, isDecimalDigit c) ∧ decimalValue (Nat.toDigits 10 n) = n := by
  constructor
  · exact isDecimalDigit_toDigitsCore (n + 1) n [] (by simp)
  · unfold decimalValue Nat.toDigits
    rw [decimalValue_toDigitsCore (n + 1) n [] (by omega)]
    rfl

theorem digitChar_toNat : ∀ d, d < 10 → (Nat.digitChar d).toNat = 48 + d := by
  decide

theorem digitChar_of_isDecimalDigit (c : Char) (h : isDecimalDigit c) :
    Nat.digitChar (c.toNat - 48) = c := by
  unfold isDecimalDigit at h
  rw [char_eq_iff, digitChar_toNat _ (by omega)]
  omega

theorem toDigitsCore_eq_append (fuel : Nat) : ∀ (n : Nat) (ds : List Char), n < fuel →
    Nat.toDigitsCore 10 fuel n ds = Nat.toDigits 10 n ++ ds := by
  induction fuel using Nat.strong_induction_on with
  | _ fuel ih =>
    intro n ds h
    cases fuel with
    | zero => omega
    | succ f =>
      rw [Nat.toDigits, Nat.toDigitsCore, Nat.toDigitsCore]
      by_cases h0 : n / 10 = 0
      · rw [if_pos h0, if_pos h0]
        rfl
      · rw [if_neg h0, if_neg h0, ih f (by omega) (n / 10) _ (by omega),
          ih n (by omega) (n / 10) _ (by omega), List.append_assoc]
        rfl

theorem toDigits_of_lt_ten (n : Nat) (h : n < 10) :
    Nat.toDigits 10 n = [Nat.digitChar n] := by
  rw [Nat.toDigits, Nat.toDigitsCore, if_pos (by omega), Nat.mod_eq_of_lt h]

theorem toDigits_of_ten_le (n : Nat) (h : 10 ≤ n) :
    Nat.toDigits 10 n = Nat.toDigits 10 (n / 10) ++ [Nat.digitChar (n % 10)] := by
  rw [Nat.toDigits, Nat.toDigitsCore, if_neg (by omega),
    toDigitsCore_eq_append n (n / 10) _ (by omega)]

theorem decimalValue_append_singleton (ds : List Char) (c : Char) :
    decimalValue (ds ++ [c]) = 10 * decimalValue ds + (c.toNat - 48) := by
  simp [decimalValue, List.foldl_append]

theorem toDigits_ne_nil (n : Nat) : Nat.toDigits 10 n ≠ [] := by
  by_cases h : n < 10
  · rw [toDigits_of_lt_ten n h]
    simp
  · rw [toDigits_of_ten_le n (by omega)]
    simp

theorem toDigits_head_zero (n : Nat) (h : (Nat.toDigits 10 n).head? = some '0') : n = 0 := by
  induction n using Nat.strong_induction_on with
  | _ n ih =>
    by_cases hlt : n < 10
    · rw [toDigits_of_lt_ten n hlt, List.head?_cons, Option.some.injEq, char_eq_iff,
        digitChar_toNat n hlt] at h
      have h48 : ('0' : Char).toNat = 48 := by decide
      omega
    · have hge : 10 ≤ n := by omega
      rw [toDigits_of_ten_le n hge, List.head?_append_of_ne_nil _ (toDigits_ne_nil _)] at h
      have := ih (n / 10) (by omega) h
      omega

theorem toDigits_canonical (n : Nat) : isCanonicalDecimal (Nat.toDigits 10 n) := by
  refine ⟨toDigits_ne_nil n, (toDigits_decimal n).1, ?_⟩
  intro h
  rw [toDigits_head_zero n h]
  rfl

theorem canonical_eq_toDigits (ds : List Char) (h : isCanonicalDecimal ds) :
    ds = Nat.toDigits 10 (decimalValue ds) := by
  induction ds using List.reverseRecOn with
  | nil => exact absurd rfl h.1
  | append_singleton init c ih =>
    obtain ⟨_, hdig, hhead⟩ := h
    have hc : isDecimalDigit c := hdig c (by simp)
    have hd : c.toNat - 48 < 10 := by
      unfold isDecimalDigit at hc
      omega
    rw [decimalValue_append_singleton]
    by_cases hinit : init = []
    · subst hinit
      have hv : decimalValue [] = 0 := rfl
      rw [hv, Nat.mul_zero, Nat.zero_add, toDigits_of_lt_ten _ hd,
        digitChar_of_isDecimalDigit c hc]
      rfl
    · have hnz : init.head? ≠ some '0' := by
        intro hz
        have h1 : (init ++ [c]).head? = some '0' := by
          rw [List.head?_append_of_ne_nil _ hinit]
          exact hz
        have h2 := congrArg List.length (hhead h1)
        cases init with
        | nil => exact hinit rfl
        | cons a t => simp at h2
      have hcan : isCanonicalDecimal init :=
        ⟨hinit, fun a ha => hdig a (List.mem_append_left _ ha), fun hz => absurd hz hnz⟩
      have hi := ih hcan
      have hv : decimalValue init ≠ 0 := by
        intro h0
        rw [h0] at hi
        rw [hi] at hnz
        exact hnz rfl
      have hq : (10 * decimalValue init + (c.toNat - 48)) / 10 = decimalValue init := by omega
      have hr : (10 * decimalValue init + (c.toNat - 48)) % 10 = c.toNat - 48 := by omega
      rw [toDigits_of_ten_le _ (by omega), hq, hr, ← hi, digitChar_of_isDecimalDigit c hc]

theorem canonical_unique (n : Nat) (ds : List Char) (h : isCanonicalDecimal ds)
    (hv : decimalValue ds = n) : ds = Nat.toDigits 10 n := by
  rw [← hv]
  exact canonical_eq_toDigits ds h

/-- C12: `NewMosaicId v` returns the error `ErrNilMosaicId` and no identifier
if and only if `v` is absent; for every present integer `x` it returns an
identifier and no error, and the `String()` of that identifier is the decimal
representation of `x`: the decimal numeral of its absolute value (decimal
digits, none of them a leading zero unless the numeral is `0`, denoting the
absolute value; there is exactly one such string), after a minus sign when `x`
is negative. -/
theorem NewMosaicId_spec (v : Option Int) :
    ((NewMosaicId v).2 = some SdkError.ErrNilMosaicId ↔ v = none) ∧
    ((NewMosaicId v).2 ≠ none ↔ v = none) ∧
    ((NewMosaicId v).1 = none ↔ v = none) ∧
    (∀ x, v = some x → ∃ id, NewMosaicId v = (some id, none) ∧ id = x ∧
      ∃ ds, (∀ c ∈ ds, isDecimalDigit c) ∧ (decimalValue ds : Int) = |x| ∧
        isCanonicalDecimal ds ∧
        (∀ ds2, isCanonicalDecimal ds2 → (decimalValue ds2 : Int) = |x| → ds2 = ds) ∧
        MosaicId.String (some id) = (if x < 0 then '-' :: ds else ds)) ∧
    MosaicId.String (NewMosaicId (some 15358872602548358953)).1
      = "15358872602548358953".toList ∧
    MosaicId.String (NewMosaicId (some 0)).1 = "0".toList ∧
    MosaicId.String (NewMosaicId (some (-42))).1 = "-42".toList := by
  refine ⟨?_, ?_, ?_, ?_, by decide, by decide, by decide⟩
  · cases v <;> simp [NewMosaicId]
  · cases v <;> simp [NewMosaicId]
  · cases v <;> simp [NewMosaicId, bigIntToMosaicId]
  · intro x hx
    subst hx
    refine ⟨x, rfl, rfl, Nat.toDigits 10 x.natAbs, (toDigits_decimal x.natAbs).1, ?_,
      toDigits_canonical x.natAbs, ?_, ?_⟩
    · rw [(toDigits_decimal x.natAbs).2]
      exact Int.natCast_natAbs x
    · intro ds2 hcan hval
      apply canonical_unique x.natAbs ds2 hcan
      have : ((decimalValue ds2 : Nat) : Int) = ((x.natAbs : Nat) : Int) := by
        rw [hval, Int.natCast_natAbs]
      exact_mod_cast this
    · simp [MosaicId.String, bigIntString]

/-! ## Theorems: NewMosaicProperties -/

/-- C13: for every combination of arguments, `NewMosaicProperties` returns a
`MosaicProperties` whose fields `SupplyMutable`, `Transferable`, `LevyMutable`,
`Divisibility` and `Duration` are the corresponding arguments, in that order,
none swapped or altered. -/
theorem NewMosaicProperties_fields (supplyMutable transferable levyMutable : Bool)
    (divisibility : Int) (duration : Option Int) :
    (NewMosaicProperties supplyMutable transferable levyMutable divisibility
        duration).SupplyMutable = supplyMutable ∧
    (NewMosaicProperties supplyMutable transferable levyMutable divisibility
        duration).Transferable = transferable ∧
    (NewMosaicProperties supplyMutable transferable levyMutable divisibility
        duration).LevyMutable = levyMutable ∧
    (NewMosaicProperties supplyMutable transferable levyMutable divisibility
        duration).Divisibility = divisibility ∧
    (NewMosaicProperties supplyMutable transferable levyMutable divisibility
        duration).Duration = duration ∧
    NewMosaicProperties true false false 3 (some 7) =
      { SupplyMutable := true, Transferable := false, LevyMutable := false,
        Divisibility := 3, Duration := some 7 } ∧
    NewMosaicProperties false true false 7 (some 3) =
      { SupplyMutable := false, Transferable := true, LevyMutable := false,
        Divisibility := 7, Duration := some 3 } ∧
    NewMosaicProperties false false true 0 none =
      { SupplyMutable := false, Transferable := false, LevyMutable := true,
        Divisibility := 0, Duration := none } :=
  ⟨rfl, rfl, rfl, rfl, rfl, rfl, rfl, rfl⟩

/-- C14 (as stated, refuted): `-1` is an `int64`, and `NewMosaicProperties`
called with divisibility `-1` returns a value whose `Divisibility` is `-1`,
which is below zero. -/
theorem NewMosaicProperties_negative_divisibility :
    isInt64 (-1) ∧
    (NewMosaicProperties false false false (-1) none).Divisibility = -1 ∧
    ¬ (0 ≤ (NewMosaicProperties false false false (-1) none).Divisibility) := by
  decide

/-- C14 (amended): the `Divisibility` of the value `NewMosaicProperties`
returns is the divisibility argument, unchecked: it is greater than or equal to
0 if and only if the argument is, and it is an `int64` when the argument is. -/
theorem NewMosaicProperties_divisibility (supplyMutable transferable levyMutable : Bool)
    (divisibility : Int) (duration : Option Int) :
    (NewMosaicProperties supplyMutable transferable levyMutable divisibility
        duration).Divisibility = divisibility ∧
    (0 ≤ (NewMosaicProperties supplyMutable transferable levyMutable divisibility
        duration).Divisibility ↔ 0 ≤ divisibility) ∧
    (isInt64 divisibility → isInt64 (NewMosaicProperties supplyMutable transferable
        levyMutable divisibility duration).Divisibility) :=
  ⟨rfl, Iff.rfl, fun h => h⟩

/-! ## Theorems: Xem and XemRelative -/

/-- C15: for every `int64` amount `a`, `Xem a` is the `Mosaic` with identifier
`XemMosaicId` and `Amount` `a`, and `XemRelative a` is the `Mosaic` with
identifier `XemMosaicId` whose `Amount` is the `int64` congruent to
`1000000 * a` modulo `2^64`; that `Amount` is the exact product when the
product is an `int64` and differs from it when the product is not, which
happens: for `a = 2^58` the `Amount` is `0`. -/
theorem Xem_XemRelative_amount (xemId : Option MosaicId) (a : Int) (ha : isInt64 a) :
    Xem xemId a = { MosaicId := xemId, Amount := some a } ∧
    (XemRelative xemId a).MosaicId = xemId ∧
    (∃ r : Int, (XemRelative xemId a).Amount = some r ∧ isInt64 r ∧
      (2 ^ 64 : Int) ∣ (r - 1000000 * a)) ∧
    (isInt64 (1000000 * a) → (XemRelative xemId a).Amount = some (1000000 * a)) ∧
    (¬ isInt64 (1000000 * a) → (XemRelative xemId a).Amount ≠ some (1000000 * a)) ∧
    (isInt64 (2 ^ 58) ∧ ¬ isInt64 (1000000 * 2 ^ 58) ∧
      (XemRelative xemId (2 ^ 58)).Amount = some 0) := by
  have _ := ha
  have hA : (XemRelative xemId a).Amount = some (Int64 (1000000 * a)) := rfl
  refine ⟨rfl, rfl, ⟨Int64 (1000000 * a), hA, ?_, ?_⟩, ?_, ?_, by decide, by decide, ?_⟩
  · rw [Int64_eq]
    unfold isInt64
    omega
  · rw [Int64_eq]
    omega
  · intro h
    rw [hA, Int64_of_isInt64 _ h]
  · intro h hEq
    rw [hA] at hEq
    have hv : Int64 (1000000 * a) = 1000000 * a := Option.some.inj hEq
    rw [Int64_eq] at hv
    unfold isInt64 at h
    omega
  · have h0 : Int64 (1000000 * 2 ^ 58) = 0 := (Int64_million_eq_zero (2 ^ 58)).mpr (dvd_refl _)
    show some (Int64 (1000000 * 2 ^ 58)) = some 0
    rw [h0]

theorem Xem_XemRelative_amount_witness :
    Xem (some 0xD525AD41D95FCF29) 5 = { MosaicId := some 0xD525AD41D95FCF29, Amount := some 5 } ∧
    (XemRelative (some 0xD525AD41D95FCF29) 5).Amount = some 5000000 ∧
    (XemRelative (some 0xD525AD41D95FCF29) (2 ^ 62)).Amount ≠ some (1000000 * 2 ^ 62) := by
  have h1 := Xem_XemRelative_amount (some 0xD525AD41D95FCF29) 5 (by decide)
  have h2 := Xem_XemRelative_amount (some 0xD525AD41D95FCF29) (2 ^ 62) (by decide)
  exact ⟨h1.1, h1.2.2.2.1 (by decide), h2.2.2.2.2.1 (by decide)⟩

/-! ## Theorems: the name validator and ShortName -/

theorem NewMosaicIdFromFullName_eq (gen : List Char → List Char → IdResult)
    (name : List Char) :
    NewMosaicIdFromFullName gen name =
      if name = [] ∨ Contains name [' ', '{'] = true ∨ (Split name ':').length ≠ 2 then
        (none, some SdkError.ErrInvalidMosaicName)
      else gen ((Split name ':').getD 0 []) ((Split name ':').getD 1 []) := by
  unfold NewMosaicIdFromFullName
  by_cases h1 : name = []
  · simp [h1]
  · by_cases h2 : Contains name [' ', '{'] = true
    · simp [h2]
    · by_cases h3 : (Split name ':').length = 2
      · simp [h1, h2, h3]
      · simp [h1, h2, h3]

theorem ShortName_eq {N P : Type} (m : MosaicInfo N P) :
    m.ShortName =
      if (Split m.FullName ':').length ≠ 2 then [] else (Split m.FullName ':').getD 1 [] := by
  rfl

/-- C16: the name validator and `ShortName` agree. Whenever
`NewMosaicIdFromFullName` hands `FullName` to the derivation collaborator, that
is returns the collaborator's answer for a pair `(parent, local)` whatever the
collaborator is, `ShortName` is that `local`; every `FullName` that is
non-empty, has no space followed by an opening brace and has one colon is of
this kind; and whenever `FullName` is non-empty, has no space followed by an
opening brace and is rejected with `ErrInvalidMosaicName` whatever the
collaborator is, `ShortName` is the empty string. -/
theorem ShortName_agrees_with_validator {N P : Type} (m : MosaicInfo N P) :
    (∀ parent loc,
      (∀ gen, NewMosaicIdFromFullName gen m.FullName = gen parent loc) →
        m.ShortName = loc) ∧
    (m.FullName ≠ [] → Contains m.FullName [' ', '{'] = false → m.FullName.count ':' = 1 →
      ∃ parent loc, (∀ gen, NewMosaicIdFromFullName gen m.FullName = gen parent loc) ∧
        m.ShortName = loc) ∧
    (m.FullName ≠ [] → Contains m.FullName [' ', '{'] = false →
      (∀ gen, NewMosaicIdFromFullName gen m.FullName
        = (none, some SdkError.ErrInvalidMosaicName)) →
        m.ShortName = []) := by
  refine ⟨?_, ?_, ?_⟩
  · intro parent loc h
    have hp := h (localProbe loc)
    rw [NewMosaicIdFromFullName_eq] at hp
    by_cases hc : m.FullName = [] ∨ Contains m.FullName [' ', '{'] = true ∨
        (Split m.FullName ':').length ≠ 2
    · rw [if_pos hc] at hp
      simp [localProbe] at hp
    · rw [if_neg hc] at hp
      have hlen : ¬ (Split m.FullName ':').length ≠ 2 := fun e => hc (Or.inr (Or.inr e))
      rw [ShortName_eq, if_neg hlen]
      by_cases he : (Split m.FullName ':').getD 1 [] = loc
      · exact he
      · unfold localProbe at hp
        rw [if_neg he, if_pos rfl] at hp
        exact absurd hp (by decide)
  · intro _ hb hcount
    obtain ⟨p, l, hn, hp, hl⟩ := count_one_split m.FullName ':' hcount
    refine ⟨p, l, ?_, ShortName_parts m p l hp hl hn⟩
    intro gen
    rw [hn]
    rw [hn] at hb
    exact NewMosaicIdFromFullName_parts gen p l hp hl hb
  · intro hne hb h
    have hp := h (localProbe [])
    rw [NewMosaicIdFromFullName_eq] at hp
    by_cases hc : m.FullName = [] ∨ Contains m.FullName [' ', '{'] = true ∨
        (Split m.FullName ':').length ≠ 2
    · have hlen : (Split m.FullName ':').length ≠ 2 := by
        rcases hc with h1 | h2 | h3
        · exact absurd h1 hne
        · rw [hb] at h2
          exact absurd h2 (by decide)
        · exact h3
      rw [ShortName_eq, if_pos hlen]
    · rw [if_neg hc] at hp
      simp [localProbe] at hp

theorem ShortName_agrees_with_validator_witness :
    (infoNamed "nem:xem".toList).ShortName = "xem".toList ∧
    (infoNamed "a:b:c".toList).ShortName = [] := by
  have h1 := ShortName_agrees_with_validator (infoNamed "nem:xem".toList)
  have h2 := ShortName_agrees_with_validator (infoNamed "a:b:c".toList)
  refine ⟨h1.1 "nem".toList "xem".toList (fun gen => rfl), h2.2.2 (by decide) (by decide) ?_⟩
  intro gen
  exact NewMosaicIdFromFullName_invalid gen _ (Or.inr (Or.inr (by decide)))

/-! ## The embedding on the inputs named by the specification -/

theorem embedding_samples :
    NetworkTypeFromString "Mijin_Test".toList = MijinTest ∧
    NetworkTypeFromString "unknown".toList = NotSupportedNet ∧
    ExtractNetworkType 0x6801 = MainNet ∧
    ExtractNetworkType 0x9801 = TestNet ∧
    Split "a:b:c".toList ':' = ["a".toList, "b".toList, "c".toList] ∧
    Split ":".toList ':' = [[], []] ∧
    Split [] ':' = [[]] ∧
    Contains "ab \x7bc".toList [' ', '{'] = true ∧
    Contains "ab\x7b c".toList [' ', '{'] = false ∧
    XemRelative none (-5) = { MosaicId := none, Amount := some (-5000000) } ∧
    Int64 (2 ^ 63) = -2 ^ 63 ∧ Int64 (-2 ^ 63 - 1) = 2 ^ 63 - 1 := by
  decide

end Sdk
